import Mathlib

/-!
Verification of a character-level bigram language model.

The model counts adjacent-character transitions over a corpus, normalizes the
counts into per-character transition probabilities (with additive smoothing),
scores words by summed log transition probabilities, and samples new words from
the transition matrix.

Embedding conventions:
* Tensors are `List (List ℚ)`; where an operation can produce a non-finite
  float (NaN or an infinity), entries are `Option ℚ` with `none` standing for
  any non-finite value.  Exact rational arithmetic idealizes float rounding.
* Python dictionaries are association lists (`List (String × Nat)` and
  `List (Nat × String)`) queried with `List.lookup`.
* Python exceptions (`KeyError`, `IndexError`, `ZeroDivisionError`, and the
  `RuntimeError` raised by `torch.multinomial` on an invalid weight vector)
  become an `Except PyError` result.
* `torch.log` is abstracted as a function parameter `log : ℚ → ℚ`: the
  properties verified here constrain only how the per-transition logs are
  combined, so they hold for every choice of the log function.
* `torch.multinomial` draws are abstracted as a choice function giving, for
  each draw, the sampled index of the supplied weight vector.
-/

attribute [local semireducible] Rat.add Rat.mul Rat.inv Rat.sub

deriving instance DecidableEq for Except

inductive PyError where
  | keyError
  | indexError
  | runtimeError
  | zeroDivisionError
deriving DecidableEq, Repr

/-- Sum of a list of float entries: any non-finite entry makes the total
non-finite (NaN propagates through `torch.sum`). -/
def optSum : List (Option ℚ) → Option ℚ
  | [] => some 0
  | a :: rest => a.bind (fun x => (optSum rest).map (fun y => x + y))

/-- Float division: a finite numerator divided by a finite non-zero denominator
is exact; division by zero yields a non-finite value (NaN for `0/0`, an
infinity otherwise), and any non-finite operand propagates. -/
def optDiv (a b : Option ℚ) : Option ℚ :=
  a.bind (fun x => b.bind (fun y => if y = 0 then none else some (x / y)))

/-- `bigrams_count_to_probabilities(bigram_counts, smooth_factor)`: clone the
count tensor, add `smooth_factor` to every cell, and divide every row by its
(post-smoothing) row sum.  The per-row computation is the broadcast
`new_tensor /= new_tensor.sum(dim=1, keepdim=True)` of the source. -/
def bigrams_count_to_probabilities (bigram_counts : List (List (Option ℚ)))
    (smooth_factor : ℚ) : List (List (Option ℚ)) :=
  bigram_counts.map (fun row =>
    let new_row := row.map (Option.map (fun c => c + smooth_factor))
    let row_sum := optSum new_row
    new_row.map (fun x => optDiv x row_sum))

/-- A heap of float tensors addressed by references, used to track which
tensor the in-place operations of `bigrams_count_to_probabilities` mutate. -/
structure TensorStore where
  mem : Nat → List (List (Option ℚ))
  next : Nat

/-- Overwrite the tensor held at reference `r` (an in-place tensor update). -/
def storeWrite (s : TensorStore) (r : Nat) (v : List (List (Option ℚ))) :
    TensorStore :=
  ⟨fun i => if i = r then v else s.mem i, s.next⟩

/-- Allocate a fresh tensor holding value `v`, returning its reference. -/
def storeAlloc (s : TensorStore) (v : List (List (Option ℚ))) :
    TensorStore × Nat :=
  (⟨fun i => if i = s.next then v else s.mem i, s.next + 1⟩, s.next)

/-- `bigrams_count_to_probabilities` with its mutations made explicit: the
input is a reference into a tensor store, `clone()` allocates a fresh tensor,
and the `+=` / `/=` statements update that fresh tensor in place. -/
def bigrams_count_to_probabilities_run (s0 : TensorStore) (bigram_counts : Nat)
    (smooth_factor : ℚ) : TensorStore × Nat :=
  let alloc := storeAlloc s0 (s0.mem bigram_counts)
  let s1 := alloc.1
  let new_tensor := alloc.2
  let s2 := storeWrite s1 new_tensor
    ((s1.mem new_tensor).map (fun row => row.map (Option.map (fun c => c + smooth_factor))))
  let rows_summed := (s2.mem new_tensor).map optSum
  let s3 := storeWrite s2 new_tensor
    (((s2.mem new_tensor).zip rows_summed).map (fun rs => rs.1.map (fun x => optDiv x rs.2)))
  (s3, new_tensor)

/-- `count_bigrams(bigrams, char_to_idx)`: map each bigram to its index pair
when both characters are in the vocabulary (`None` otherwise), drop the `None`
entries, and write each distinct pair count into a zero matrix of side
`len(char_to_idx)`.  Writing a pair outside the matrix bounds raises
`IndexError`. -/
def count_bigrams (bigrams : List (String × String))
    (char_to_idx : List (String × Nat)) : Except PyError (List (List ℚ)) :=
  let alphabet_length := char_to_idx.length
  let bigrams_indices := bigrams.filterMap (fun x =>
    match char_to_idx.lookup x.1, char_to_idx.lookup x.2 with
    | some i, some j => some (i, j)
    | _, _ => none)
  if bigrams_indices.all (fun p => p.1 < alphabet_length && p.2 < alphabet_length) then
    .ok ((List.range alphabet_length).map (fun i =>
      (List.range alphabet_length).map (fun j =>
        ((bigrams_indices.count (i, j) : ℕ) : ℚ))))
  else .error .indexError

/-- `sample_next_character(current_char_index, probability_distribution,
idx_to_char)` with the multinomial draw supplied by `choice`: select the row of
the current character, sample an index from the row weights, and map it back to
a character.  `torch.multinomial` raises `RuntimeError` when a weight is
negative or the weights sum to zero (or less). -/
def sample_next_character (choice : List ℚ → Nat) (current_char_index : Nat)
    (probability_distribution : List (List ℚ)) (idx_to_char : List (Nat × String)) :
    Except PyError String :=
  match probability_distribution[current_char_index]? with
  | none => .error .indexError
  | some current_probs =>
    if (∃ p ∈ current_probs, p < 0) ∨ current_probs.sum ≤ 0 then
      .error .runtimeError
    else
      match idx_to_char.lookup (choice current_probs) with
      | none => .error .keyError
      | some next_char => .ok next_char

/-- The `for _ in range(max_length)` loop of `generate_name`: at each step
sample the successor of the current character, stop (returning the accumulated
name) when the sampled character equals the end token, otherwise append it.
The name is kept as the list of sampled symbols; the source concatenates them
into one string.  The counter `t` numbers the multinomial draws. -/
def generate_name_loop (choice : Nat → List ℚ → Nat) (end_token : String)
    (char_to_idx : List (String × Nat)) (idx_to_char : List (Nat × String))
    (bigram_probabilities : List (List ℚ)) :
    Nat → Nat → String → List String → Except PyError (List String)
  | 0, _, _, generated_name => .ok generated_name
  | n + 1, t, current_char, generated_name =>
    match char_to_idx.lookup current_char with
    | none => .error .keyError
    | some i =>
      match sample_next_character (choice t) i bigram_probabilities idx_to_char with
      | .error err => .error err
      | .ok c =>
        if c = end_token then .ok generated_name
        else generate_name_loop choice end_token char_to_idx idx_to_char
          bigram_probabilities n (t + 1) c (generated_name ++ [c])

/-- `generate_name(start_token, end_token, char_to_idx, idx_to_char,
bigram_probabilities, max_length)`: start from the start token with the empty
name and iterate the sampling loop at most `max_length` times. -/
def generate_name (choice : Nat → List ℚ → Nat) (start_token end_token : String)
    (char_to_idx : List (String × Nat)) (idx_to_char : List (Nat × String))
    (bigram_probabilities : List (List ℚ)) (max_length : Nat) :
    Except PyError (List String) :=
  generate_name_loop choice end_token char_to_idx idx_to_char
    bigram_probabilities max_length 0 start_token []

/-- Look up cell `(i, j)` of a 2D tensor; an out-of-range index raises
`IndexError`. -/
def bigram_lookup (bigram_probabilities : List (List ℚ)) (i j : Nat) :
    Except PyError ℚ :=
  match bigram_probabilities[i]? with
  | none => .error .indexError
  | some row =>
    match row[j]? with
    | none => .error .indexError
    | some p => .ok p

/-- The accumulation loop of `calculate_log_likelihood`: for each adjacent pair
of the processed word, look both characters up in `char_to_index` (raising
`KeyError` on a miss), fetch the transition probability, and accumulate its
log. -/
def log_likelihood_loop (log : ℚ → ℚ) (bigram_probabilities : List (List ℚ))
    (char_to_index : List (String × Nat)) : List String → Except PyError ℚ
  | a :: b :: rest =>
    match char_to_index.lookup a with
    | none => .error .keyError
    | some i =>
      match char_to_index.lookup b with
      | none => .error .keyError
      | some j =>
        match bigram_lookup bigram_probabilities i j with
        | .error err => .error err
        | .ok p =>
          match log_likelihood_loop log bigram_probabilities char_to_index (b :: rest) with
          | .error err => .error err
          | .ok s => .ok (log p + s)
  | _ => .ok 0

/-- `calculate_log_likelihood(word, bigram_probabilities, char_to_index,
start_token, end_token)`: bracket the word's characters between the start and
end tokens (`[start_token, *word, end_token]`) and sum the logs of the
transition probabilities of adjacent pairs. -/
def calculate_log_likelihood (log : ℚ → ℚ) (word : String)
    (bigram_probabilities : List (List ℚ)) (char_to_index : List (String × Nat))
    (start_token end_token : String) : Except PyError ℚ :=
  let processed_word : List String :=
    [start_token] ++ word.data.map Char.toString ++ [end_token]
  log_likelihood_loop log bigram_probabilities char_to_index processed_word

/-- Python's `str.lower()` (restricted to the ASCII range, which covers the
alphabets the repository uses), written over the character list. -/
def pyLower (s : String) : String := String.mk (s.data.map Char.toLower)

/-- `calculate_neg_mean_log_likelihood(words, bigram_probabilities,
char_to_index, start_token, end_token)`: lower-case each word, compute its log
likelihood, and return the negated mean.  An empty list reaches
`sum(...)/len(...)` with `len` zero, raising `ZeroDivisionError`. -/
def calculate_neg_mean_log_likelihood (log : ℚ → ℚ) (words : List String)
    (bigram_probabilities : List (List ℚ)) (char_to_index : List (String × Nat))
    (start_token end_token : String) : Except PyError ℚ :=
  match words.mapM (fun x => calculate_log_likelihood log (pyLower x)
      bigram_probabilities char_to_index start_token end_token) with
  | .error err => .error err
  | .ok log_likelihoods =>
    if log_likelihoods.length = 0 then .error .zeroDivisionError
    else .ok (-(log_likelihoods.sum / (log_likelihoods.length : ℚ)))

/-- The score the specification prescribes for a bracketed symbol sequence
`pw`: the sum, over each adjacent pair `(prev, next)` of `pw`, of
`log(probs[char_to_index[prev]][char_to_index[next]])`.  Written from the
specification's words, to be compared with `calculate_log_likelihood`. -/
def spec_log_likelihood_sum (log : ℚ → ℚ) (bigram_probabilities : List (List ℚ))
    (char_to_index : List (String × Nat)) (pw : List String) : ℚ :=
  ((pw.zip pw.tail).map (fun ab =>
    log ((bigram_probabilities.getD ((char_to_index.lookup ab.1).getD 0) []).getD
      ((char_to_index.lookup ab.2).getD 0) 0))).sum

theorem optSum_map_some (l : List ℚ) : optSum (l.map some) = some l.sum := by
  induction l with
  | nil => rfl
  | cons a t ih => simp [optSum, ih]

theorem sum_map_div (l : List ℚ) (s : ℚ) :
    (l.map (fun x => x / s)).sum = l.sum / s := by
  induction l with
  | nil => simp
  | cons a t ih => simp [ih, add_div]

theorem map_optDiv_some (srow : List ℚ) (s : ℚ) (hne : s ≠ 0) :
    (srow.map some).map (fun x => optDiv x (some s)) =
      srow.map (fun x => some (x / s)) := by
  induction srow with
  | nil => rfl
  | cons a t ih => simp [optDiv, hne, ih]

/-- Claim C3: the specification requires that with smoothing 0 an all-zero
count row normalizes to an all-zero row with no NaN or Inf entries; the code
instead divides that row by its zero row-sum, so every cell of the row becomes
`0/0`, a NaN (modelled `none`), as this evaluation at the concrete count
matrix `[[0,0],[1,1]]` with `smooth_factor = 0` shows. -/
theorem C3_zero_row_yields_nan :
    bigrams_count_to_probabilities [[some 0, some 0], [some 1, some 1]] 0 =
      [[none, none], [some (1 / 2), some (1 / 2)]] := by decide

/-- Claim C8: `calculate_neg_mean_log_likelihood` on an empty word list reaches
the averaging division with a zero denominator and fails with the
division-by-zero error the specification calls the empty-input error; it
returns no numeric value. -/
theorem C8_empty_words_fails (log : ℚ → ℚ) (bigram_probabilities : List (List ℚ))
    (char_to_index : List (String × Nat)) (start_token end_token : String) :
    calculate_neg_mean_log_likelihood log [] bigram_probabilities char_to_index
      start_token end_token = .error .zeroDivisionError := rfl

/-- Claim C2: for every count matrix and every smoothing value ≥ 0, every row
whose post-smoothing sum is positive is returned by
`bigrams_count_to_probabilities` with all entries finite, non-negative, and
summing to 1 within 1e-6. -/
theorem C2_row_normalized (counts : List (List ℚ)) (smooth : ℚ) (i : Nat)
    (row : List ℚ) (hrow : counts[i]? = some row) (hs : 0 ≤ smooth)
    (hnn : ∀ c ∈ row, 0 ≤ c)
    (hpos : 0 < (row.map (fun c => c + smooth)).sum) :
    ∃ prow,
      (bigrams_count_to_probabilities (counts.map (fun r => r.map some)) smooth)[i]? =
        some prow ∧
      (∀ x ∈ prow, ∃ q, x = some q ∧ 0 ≤ q) ∧
      |(prow.map (fun o => o.getD 0)).sum - 1| ≤ 1 / 1000000 := by
  have hmap :
      (row.map some).map (Option.map (fun c => c + smooth)) =
        (row.map (fun c => c + smooth)).map some := by
    simp [List.map_map]
  have hne : (row.map (fun c => c + smooth)).sum ≠ 0 := ne_of_gt hpos
  have h1 : (counts.map (fun r => r.map some))[i]? = some (row.map some) := by
    rw [List.getElem?_map, hrow]
    rfl
  refine ⟨(row.map (fun c => c + smooth)).map
    (fun x => some (x / (row.map (fun c => c + smooth)).sum)), ?_, ?_, ?_⟩
  · simp only [bigrams_count_to_probabilities, List.getElem?_map, h1]
    rw [show Option.map (fun row => (row.map (Option.map (fun c => c + smooth))).map
        (fun x => optDiv x (optSum (row.map (Option.map (fun c => c + smooth))))))
        (some (row.map some)) =
      some (((row.map some).map (Option.map (fun c => c + smooth))).map
        (fun x => optDiv x (optSum ((row.map some).map
          (Option.map (fun c => c + smooth)))))) from rfl]
    rw [hmap, optSum_map_some, map_optDiv_some _ _ hne]
  · intro x hx
    rcases List.mem_map.mp hx with ⟨y, hy, hxy⟩
    rcases List.mem_map.mp hy with ⟨c, hc, hcy⟩
    refine ⟨y / (row.map (fun c => c + smooth)).sum, hxy.symm, ?_⟩
    have hy0 : 0 ≤ y := hcy ▸ add_nonneg (hnn c hc) hs
    exact div_nonneg hy0 (le_of_lt hpos)
  · rw [List.map_map]
    have : (fun o => Option.getD o 0) ∘
        (fun x => some (x / (row.map (fun c => c + smooth)).sum)) =
        fun x => x / (row.map (fun c => c + smooth)).sum := rfl
    rw [this, sum_map_div, div_self hne]
    simp

/-- Witness for Claim C2 at the concrete count matrix `[[1, 1]]` with
smoothing 0: its only row sums to 2, and the returned row `[1/2, 1/2]` is
finite, non-negative, and sums to 1. -/
theorem C2_row_normalized_witness :
    (([[1, 1]] : List (List ℚ))[0]? = some [1, 1] ∧ (0 : ℚ) ≤ 0 ∧
      (∀ c ∈ ([1, 1] : List ℚ), 0 ≤ c) ∧
      0 < (([1, 1] : List ℚ).map (fun c => c + 0)).sum) ∧
    ∃ prow,
      (bigrams_count_to_probabilities (([[1, 1]] : List (List ℚ)).map
        (fun r => r.map some)) 0)[0]? = some prow ∧
      (∀ x ∈ prow, ∃ q, x = some q ∧ 0 ≤ q) ∧
      |(prow.map (fun o => o.getD 0)).sum - 1| ≤ 1 / 1000000 :=
  ⟨⟨by decide, by decide, by decide, by decide⟩,
    C2_row_normalized [[1, 1]] 0 0 [1, 1] (by decide) (by decide) (by decide)
      (by decide)⟩

theorem zip_map_self {α β : Type} (g : α → β) (l : List α) :
    l.zip (l.map g) = l.map (fun a => (a, g a)) := by
  induction l with
  | nil => rfl
  | cons a t ih => simp [ih]

/-- The store-level run computes, at its output reference, exactly the value of
the pure normalization applied to the input tensor: the explicit-mutation
embedding and the functional one agree. -/
theorem bigrams_run_agrees (s0 : TensorStore) (r : Nat) (smooth : ℚ) :
    (bigrams_count_to_probabilities_run s0 r smooth).1.mem
        (bigrams_count_to_probabilities_run s0 r smooth).2 =
      bigrams_count_to_probabilities (s0.mem r) smooth := by
  simp only [bigrams_count_to_probabilities_run, bigrams_count_to_probabilities,
    storeAlloc, storeWrite]
  simp only [if_true]
  rw [zip_map_self, List.map_map, List.map_map]
  rfl

/-- Claim C9: `bigrams_count_to_probabilities` never mutates its input matrix:
running it on a tensor store leaves the tensor held at the input reference
unchanged (the function clones the input and updates only the clone). -/
theorem C9_input_not_mutated (s0 : TensorStore) (bigram_counts : Nat)
    (smooth_factor : ℚ) (h : bigram_counts ≠ s0.next) :
    (bigrams_count_to_probabilities_run s0 bigram_counts smooth_factor).1.mem
        bigram_counts = s0.mem bigram_counts := by
  simp [bigrams_count_to_probabilities_run, storeAlloc, storeWrite, h]

/-- Witness for Claim C9: a store holding the 1×1 count matrix `[[1]]` at
reference 0 still holds it there after normalization with smoothing 2. -/
theorem C9_input_not_mutated_witness :
    (0 : Nat) ≠ (1 : Nat) ∧
      (bigrams_count_to_probabilities_run ⟨fun _ => [[some 1]], 1⟩ 0 2).1.mem 0 =
        (fun _ => [[some (1 : ℚ)]]) 0 :=
  ⟨by decide, C9_input_not_mutated ⟨fun _ => [[some 1]], 1⟩ 0 2 (by decide)⟩

theorem lookup_val_mem {β : Type} (d : List (String × β)) (k : String) (v : β)
    (h : d.lookup k = some v) : ∃ kv ∈ d, kv.2 = v := by
  induction d with
  | nil => simp [List.lookup] at h
  | cons a t ih =>
    obtain ⟨k1, v1⟩ := a
    by_cases hk : k = k1
    · subst hk
      simp [List.lookup] at h
      exact ⟨(k, v1), by simp, by simp [h]⟩
    · have hk2 : (k == k1) = false := beq_false_of_ne hk
      simp only [List.lookup, hk2] at h
      obtain ⟨kv, hkv, hv⟩ := ih h
      exact ⟨kv, List.mem_cons_of_mem _ hkv, hv⟩

theorem log_likelihood_loop_eq (log : ℚ → ℚ) (probs : List (List ℚ))
    (d : List (String × Nat)) (pw : List String)
    (hd : ∀ c ∈ pw, (d.lookup c).isSome)
    (hv : ∀ kv ∈ d, kv.2 < probs.length)
    (hsq : ∀ row ∈ probs, row.length = probs.length) :
    log_likelihood_loop log probs d pw =
      .ok (spec_log_likelihood_sum log probs d pw) := by
  have hlt : ∀ c i, d.lookup c = some i → i < probs.length := by
    intro c i hci
    obtain ⟨kv, hkv, hkv2⟩ := lookup_val_mem d c i hci
    exact hkv2 ▸ hv kv hkv
  induction pw with
  | nil => simp [log_likelihood_loop, spec_log_likelihood_sum]
  | cons a t ih =>
    cases t with
    | nil => simp [log_likelihood_loop, spec_log_likelihood_sum]
    | cons b r =>
      obtain ⟨i, hi⟩ := Option.isSome_iff_exists.mp (hd a (by simp))
      obtain ⟨j, hj⟩ := Option.isSome_iff_exists.mp (hd b (by simp))
      have hilt : i < probs.length := hlt a i hi
      have hjlt : j < probs.length := hlt b j hj
      have hrow : probs[i]? = some probs[i] := List.getElem?_eq_getElem hilt
      have hrl : probs[i].length = probs.length :=
        hsq probs[i] (probs.getElem_mem hilt)
      have hcell : probs[i][j]? = some (probs[i].get ⟨j, hrl ▸ hjlt⟩) :=
        List.getElem?_eq_getElem (hrl ▸ hjlt)
      have hrest := ih (fun c hc => hd c (List.mem_cons_of_mem a hc))
      simp only [log_likelihood_loop, hi, hj, bigram_lookup, hrow, hcell, hrest]
      simp only [spec_log_likelihood_sum, List.zip_cons_cons, List.tail_cons,
        List.map_cons, List.sum_cons]
      congr 2
      · congr 1
        rw [hi, hj]
        simp only [Option.getD_some]
        rw [List.getD_eq_getElem?_getD probs i [], hrow, Option.getD_some,
          List.getD_eq_getElem?_getD, hcell, Option.getD_some]

/-- Claim C1: for every word whose characters, start token and end token are
all present in `char_to_index` (a vocabulary whose indices address the square
probability matrix), `calculate_log_likelihood` returns exactly the sum, over
each adjacent pair `(prev, next)` of the bracketed sequence
`[start_token, characters of word, end_token]` — start token first, end token
last — of `log(probs[char_to_index[prev]][char_to_index[next]])`. -/
theorem C1_log_likelihood_is_pair_sum (log : ℚ → ℚ) (word : String)
    (probs : List (List ℚ)) (char_to_index : List (String × Nat))
    (start_token end_token : String)
    (hd : ∀ c ∈ [start_token] ++ word.data.map Char.toString ++ [end_token],
      (char_to_index.lookup c).isSome)
    (hv : ∀ kv ∈ char_to_index, kv.2 < probs.length)
    (hsq : ∀ row ∈ probs, row.length = probs.length) :
    calculate_log_likelihood log word probs char_to_index start_token end_token =
      .ok (spec_log_likelihood_sum log probs char_to_index
        ([start_token] ++ word.data.map Char.toString ++ [end_token])) :=
  log_likelihood_loop_eq log probs char_to_index
    ([start_token] ++ word.data.map Char.toString ++ [end_token]) hd hv hsq

/-- Witness for Claim C1 on the specification's toy vocabulary
`{start = "-", "a", end = "."}` with the deterministic transition matrix: the
log likelihood of the word `"a"` is computed and equals the bracketed
adjacent-pair sum. -/
theorem C1_log_likelihood_is_pair_sum_witness :
    ((∀ c ∈ ["-"] ++ "a".data.map Char.toString ++ ["."],
        ((([("-", 0), ("a", 1), (".", 2)]) : List (String × Nat)).lookup c).isSome) ∧
      (∀ kv ∈ ([("-", 0), ("a", 1), (".", 2)] : List (String × Nat)),
        kv.2 < ([[0, 1, 0], [0, 0, 1], [0, 0, 0]] : List (List ℚ)).length) ∧
      (∀ row ∈ ([[0, 1, 0], [0, 0, 1], [0, 0, 0]] : List (List ℚ)),
        row.length = ([[0, 1, 0], [0, 0, 1], [0, 0, 0]] : List (List ℚ)).length)) ∧
    calculate_log_likelihood (fun q => q - 1) "a"
        [[0, 1, 0], [0, 0, 1], [0, 0, 0]] [("-", 0), ("a", 1), (".", 2)] "-" "." =
      .ok (spec_log_likelihood_sum (fun q => q - 1)
        [[0, 1, 0], [0, 0, 1], [0, 0, 0]] [("-", 0), ("a", 1), (".", 2)]
        (["-"] ++ "a".data.map Char.toString ++ ["."])) :=
  ⟨⟨by decide, by decide, by decide⟩,
    C1_log_likelihood_is_pair_sum (fun q => q - 1) "a"
      [[0, 1, 0], [0, 0, 1], [0, 0, 0]] [("-", 0), ("a", 1), (".", 2)] "-" "."
      (by decide) (by decide) (by decide)⟩

/-- Claim C5: on a one-word list, `calculate_neg_mean_log_likelihood` returns
the negation of that word's own log likelihood (the word lower-cased first, as
the engine lower-cases each word before scoring). -/
theorem C5_singleton_neg_mean (log : ℚ → ℚ) (w : String)
    (probs : List (List ℚ)) (char_to_index : List (String × Nat))
    (start_token end_token : String) (x : ℚ)
    (h : calculate_log_likelihood log (pyLower w) probs char_to_index
      start_token end_token = .ok x) :
    calculate_neg_mean_log_likelihood log [w] probs char_to_index
      start_token end_token = .ok (-x) := by
  simp [calculate_neg_mean_log_likelihood, List.mapM, List.mapM.loop, h]

/-- Witness for Claim C5: on the toy vocabulary, the word `"A"` lower-cases to
`"a"`, whose log likelihood computes to `log 1 + (log 1 + 0)`; the negated mean
over the one-word list `["A"]` is its negation. -/
theorem C5_singleton_neg_mean_witness :
    calculate_log_likelihood (fun q => q - 1) (pyLower "A")
        [[0, 1, 0], [0, 0, 1], [0, 0, 0]] [("-", 0), ("a", 1), (".", 2)] "-" "." =
      .ok 0 ∧
    calculate_neg_mean_log_likelihood (fun q => q - 1) ["A"]
        [[0, 1, 0], [0, 0, 1], [0, 0, 0]] [("-", 0), ("a", 1), (".", 2)] "-" "." =
      .ok (-0) :=
  ⟨by decide,
    C5_singleton_neg_mean (fun q => q - 1) "A"
      [[0, 1, 0], [0, 0, 1], [0, 0, 0]] [("-", 0), ("a", 1), (".", 2)] "-" "." 0
      (by decide)⟩

theorem generate_name_loop_end_not_mem (choice : Nat → List ℚ → Nat)
    (end_token : String) (d1 : List (String × Nat)) (d2 : List (Nat × String))
    (probs : List (List ℚ)) :
    ∀ fuel t current acc name,
      generate_name_loop choice end_token d1 d2 probs fuel t current acc =
        .ok name →
      end_token ∉ acc → end_token ∉ name := by
  intro fuel
  induction fuel with
  | zero =>
    intro t current acc name h hacc
    simp only [generate_name_loop, Except.ok.injEq] at h
    exact h ▸ hacc
  | succ n ih =>
    intro t current acc name h hacc
    simp only [generate_name_loop] at h
    cases hl : d1.lookup current with
    | none =>
      simp only [hl] at h
      exact Except.noConfusion h
    | some i =>
      simp only [hl] at h
      cases hs : sample_next_character (choice t) i probs d2 with
      | error err =>
        simp only [hs] at h
        exact Except.noConfusion h
      | ok c =>
        simp only [hs] at h
        by_cases hc : c = end_token
        · rw [if_pos hc] at h
          cases h
          exact hacc
        · rw [if_neg hc] at h
          refine ih (t + 1) c (acc ++ [c]) name h ?_
          intro hmem
          rcases List.mem_append.mp hmem with h1 | h2
          · exact hacc h1
          · simp only [List.mem_singleton] at h2
            exact hc h2.symm

theorem generate_name_loop_length (choice : Nat → List ℚ → Nat)
    (end_token : String) (d1 : List (String × Nat)) (d2 : List (Nat × String))
    (probs : List (List ℚ)) :
    ∀ fuel t current acc name,
      generate_name_loop choice end_token d1 d2 probs fuel t current acc =
        .ok name →
      name.length ≤ acc.length + fuel := by
  intro fuel
  induction fuel with
  | zero =>
    intro t current acc name h
    simp only [generate_name_loop, Except.ok.injEq] at h
    simp [← h]
  | succ n ih =>
    intro t current acc name h
    simp only [generate_name_loop] at h
    cases hl : d1.lookup current with
    | none =>
      simp only [hl] at h
      exact Except.noConfusion h
    | some i =>
      simp only [hl] at h
      cases hs : sample_next_character (choice t) i probs d2 with
      | error err =>
        simp only [hs] at h
        exact Except.noConfusion h
      | ok c =>
        simp only [hs] at h
        by_cases hc : c = end_token
        · rw [if_pos hc] at h
          cases h
          omega
        · rw [if_neg hc] at h
          have := ih (t + 1) c (acc ++ [c]) name h
          simp only [List.length_append, List.length_singleton] at this
          omega

/-- Claim C4 as stated is refuted: with a probability matrix that sends the
start symbol back to itself with probability 1 (a draw `torch.multinomial`
must make, the only positive weight), `generate_name` appends the start token
to the output — the code only filters the end token, so the returned sequence
contains the start token `"-"`. -/
theorem C4_counterexample_start_token_emitted :
    generate_name (fun _ _ => 0) "-" "." [("-", 0), (".", 1)]
        [(0, "-"), (1, ".")] [[1, 0], [0, 1]] 1 = .ok ["-"] ∧
      "-" ∈ (["-"] : List String) := by decide

/-- Claim C4 (amended): for every probability matrix, start token, end token
and max_length, a sequence returned by `generate_name` never contains the end
token; the start token, however, can occur in the output whenever the matrix
gives positive transition probability into the start symbol. -/
theorem C4_end_token_not_in_output (choice : Nat → List ℚ → Nat)
    (start_token end_token : String) (char_to_idx : List (String × Nat))
    (idx_to_char : List (Nat × String)) (probs : List (List ℚ))
    (max_length : Nat) (name : List String)
    (h : generate_name choice start_token end_token char_to_idx idx_to_char
      probs max_length = .ok name) :
    end_token ∉ name :=
  generate_name_loop_end_not_mem choice end_token char_to_idx idx_to_char probs
    max_length 0 start_token [] name h (by simp)

/-- Witness for the amended Claim C4: a concrete run that immediately samples
the end token returns the empty sequence, which indeed does not contain it. -/
theorem C4_end_token_not_in_output_witness :
    generate_name (fun _ _ => 1) "-" "." [("-", 0), (".", 1)]
        [(0, "-"), (1, ".")] [[0, 1], [0, 1]] 5 = .ok [] ∧
      "." ∉ ([] : List String) :=
  ⟨by decide,
    C4_end_token_not_in_output (fun _ _ => 1) "-" "." [("-", 0), (".", 1)]
      [(0, "-"), (1, ".")] [[0, 1], [0, 1]] 5 [] (by decide)⟩

/-- Claim C6: `generate_name` stops at the first sampled end token or after
`max_length` draws, whichever comes first; in particular every returned
sequence has length at most `max_length`. -/
theorem C6_output_length_le_max (choice : Nat → List ℚ → Nat)
    (start_token end_token : String) (char_to_idx : List (String × Nat))
    (idx_to_char : List (Nat × String)) (probs : List (List ℚ))
    (max_length : Nat) (name : List String)
    (h : generate_name choice start_token end_token char_to_idx idx_to_char
      probs max_length = .ok name) :
    name.length ≤ max_length := by
  have hlen := generate_name_loop_length choice end_token char_to_idx
    idx_to_char probs max_length 0 start_token [] name h
  simpa using hlen

/-- Witness for Claim C6: a run over the three-symbol vocabulary emits "a" and
then hits the end token, producing one symbol within the bound 2. -/
theorem C6_output_length_le_max_witness :
    generate_name (fun t _ => t + 1) "-" "." [("-", 0), ("a", 1), (".", 2)]
        [(0, "-"), (1, "a"), (2, ".")] [[0, 1, 0], [0, 0, 1], [0, 0, 0]] 2 =
      .ok ["a"] ∧
      (["a"] : List String).length ≤ 2 :=
  ⟨by decide,
    C6_output_length_le_max (fun t _ => t + 1) "-" "."
      [("-", 0), ("a", 1), (".", 2)] [(0, "-"), (1, "a"), (2, ".")]
      [[0, 1, 0], [0, 0, 1], [0, 0, 0]] 2 ["a"] (by decide)⟩

theorem sample_zero_row_error (choice : List ℚ → Nat) (i : Nat) (row : List ℚ)
    (probs : List (List ℚ)) (idx_to_char : List (Nat × String))
    (hrow : probs[i]? = some row) (hz : ∀ p ∈ row, p = 0) :
    sample_next_character choice i probs idx_to_char = .error .runtimeError := by
  have hsum : row.sum = 0 := List.sum_eq_zero hz
  simp only [sample_next_character, hrow]
  rw [if_pos (Or.inr (le_of_eq hsum))]

/-- Claim C7: sampling the successor of a character whose probability row is
all zeros fails fast with the `RuntimeError` `torch.multinomial` raises on a
zero-weight distribution, and a `generate_name` call that reaches that row (as
the start row, with at least one step allowed) fails the same way instead of
returning a sequence. -/
theorem C7_zero_row_fails_fast (choice : List ℚ → Nat)
    (pick : Nat → List ℚ → Nat) (i : Nat) (row : List ℚ)
    (probs : List (List ℚ)) (idx_to_char : List (Nat × String))
    (start_token end_token : String) (char_to_idx : List (String × Nat))
    (max_length : Nat) (hrow : probs[i]? = some row) (hz : ∀ p ∈ row, p = 0)
    (hst : char_to_idx.lookup start_token = some i) (hml : 0 < max_length) :
    sample_next_character choice i probs idx_to_char = .error .runtimeError ∧
      generate_name pick start_token end_token char_to_idx idx_to_char probs
        max_length = .error .runtimeError := by
  refine ⟨sample_zero_row_error choice i row probs idx_to_char hrow hz, ?_⟩
  obtain ⟨n, rfl⟩ : ∃ n, max_length = n + 1 :=
    ⟨max_length - 1, (Nat.succ_pred_eq_of_pos hml).symm⟩
  simp only [generate_name, generate_name_loop, hst,
    sample_zero_row_error (pick 0) i row probs idx_to_char hrow hz]

/-- Witness for Claim C7: over a two-symbol vocabulary whose start row is all
zeros, both the direct sample and a three-step generation fail with the
multinomial RuntimeError. -/
theorem C7_zero_row_fails_fast_witness :
    ((([[0, 0], [0, 0]] : List (List ℚ))[0]? = some [0, 0]) ∧
      (∀ p ∈ ([0, 0] : List ℚ), p = 0) ∧
      (([("-", 0), (".", 1)] : List (String × Nat)).lookup "-" = some 0) ∧
      0 < 3) ∧
    sample_next_character (fun _ => 0) 0 [[0, 0], [0, 0]] [(0, "-"), (1, ".")] =
        .error .runtimeError ∧
      generate_name (fun _ _ => 0) "-" "." [("-", 0), (".", 1)]
        [(0, "-"), (1, ".")] [[0, 0], [0, 0]] 3 = .error .runtimeError :=
  ⟨⟨by decide, by decide, by decide, by decide⟩,
    C7_zero_row_fails_fast (fun _ => 0) (fun _ _ => 0) 0 [0, 0] [[0, 0], [0, 0]]
      [(0, "-"), (1, ".")] "-" "." [("-", 0), (".", 1)] 3 (by decide)
      (by decide) (by decide) (by decide)⟩

theorem count_filterMap_lookup (bigrams : List (String × String))
    (d : List (String × Nat)) (i j : Nat) :
    (bigrams.filterMap (fun x =>
      match d.lookup x.1, d.lookup x.2 with
      | some a, some b => some (a, b)
      | _, _ => none)).count (i, j) =
      (bigrams.filter (fun x =>
        decide (d.lookup x.1 = some i ∧ d.lookup x.2 = some j))).length := by
  induction bigrams with
  | nil => rfl
  | cons p t ih =>
    rw [List.filterMap_cons, List.filter_cons]
    cases h1 : d.lookup p.1 with
    | none => simp [h1, ih]
    | some a =>
      cases h2 : d.lookup p.2 with
      | none => simp [h1, h2, ih]
      | some b =>
        by_cases hib : a = i ∧ b = j
        · obtain ⟨rfl, rfl⟩ := hib
          simp [h1, h2, List.count_cons, ih]
        · simp [h1, h2, List.count_cons, ih, hib, Prod.ext_iff]

theorem getD_map_range {α : Type} (n i : Nat) (hi : i < n) (f : Nat → α)
    (d : α) : ((List.range n).map f).getD i d = f i := by
  rw [List.getD_eq_getElem?_getD, List.getElem?_map, List.getElem?_range hi]
  rfl

/-- Claim C10: `count_bigrams` silently drops out-of-vocabulary bigrams: for
every bigram list and every dictionary mapping into valid matrix indices, the
call raises no error, and cell `(i, j)` of the returned matrix counts exactly
the bigrams both of whose symbols are in the vocabulary and map to `(i, j)` —
a pair with either symbol absent from `char_to_idx` contributes nothing. -/
theorem C10_count_bigrams_drops_oov (bigrams : List (String × String))
    (char_to_idx : List (String × Nat))
    (hv : ∀ kv ∈ char_to_idx, kv.2 < char_to_idx.length) :
    ∃ M, count_bigrams bigrams char_to_idx = .ok M ∧
      ∀ i j, i < char_to_idx.length → j < char_to_idx.length →
        (M.getD i []).getD j 0 =
          ((bigrams.filter (fun x =>
            decide (char_to_idx.lookup x.1 = some i ∧
              char_to_idx.lookup x.2 = some j))).length : ℚ) := by
  have hcond : (bigrams.filterMap (fun x =>
      match char_to_idx.lookup x.1, char_to_idx.lookup x.2 with
      | some a, some b => some (a, b)
      | _, _ => none)).all
      (fun p => decide (p.1 < char_to_idx.length) &&
        decide (p.2 < char_to_idx.length)) = true := by
    rw [List.all_eq_true]
    intro p hp
    obtain ⟨x, hx, hfx⟩ := List.mem_filterMap.mp hp
    cases h1 : char_to_idx.lookup x.1 with
    | none => simp [h1] at hfx
    | some a =>
      cases h2 : char_to_idx.lookup x.2 with
      | none => simp [h1, h2] at hfx
      | some b =>
        simp only [h1, h2, Option.some.injEq] at hfx
        obtain ⟨kv1, hkv1, hkv1v⟩ := lookup_val_mem _ _ _ h1
        obtain ⟨kv2, hkv2, hkv2v⟩ := lookup_val_mem _ _ _ h2
        subst hfx
        simp [hkv1v ▸ hv kv1 hkv1, hkv2v ▸ hv kv2 hkv2]
  refine ⟨(List.range char_to_idx.length).map (fun i =>
      (List.range char_to_idx.length).map (fun j =>
        (((bigrams.filterMap (fun x =>
          match char_to_idx.lookup x.1, char_to_idx.lookup x.2 with
          | some a, some b => some (a, b)
          | _, _ => none)).count (i, j) : ℕ) : ℚ))), ?_, ?_⟩
  · simp only [count_bigrams]
    rw [if_pos hcond]
  · intro i j hi hj
    rw [getD_map_range _ _ hi, getD_map_range _ _ hj, count_filterMap_lookup]

/-- Witness for Claim C10: the bigram list `[("a","b"), ("a","z")]` with the
vocabulary `{a, b}` counts the in-vocabulary pair once, drops the pair with the
out-of-vocabulary symbol `"z"` and raises no error. -/
theorem C10_count_bigrams_drops_oov_witness :
    (∀ kv ∈ ([("a", 0), ("b", 1)] : List (String × Nat)),
      kv.2 < ([("a", 0), ("b", 1)] : List (String × Nat)).length) ∧
    ∃ M, count_bigrams [("a", "b"), ("a", "z")] [("a", 0), ("b", 1)] = .ok M ∧
      ∀ i j, i < ([("a", 0), ("b", 1)] : List (String × Nat)).length →
        j < ([("a", 0), ("b", 1)] : List (String × Nat)).length →
        (M.getD i []).getD j 0 =
          (((([("a", "b"), ("a", "z")] : List (String × String)).filter (fun x =>
            decide ((([("a", 0), ("b", 1)] : List (String × Nat)).lookup x.1 = some i) ∧
              (([("a", 0), ("b", 1)] : List (String × Nat)).lookup x.2 = some j)))).length : ℕ) : ℚ) :=
  ⟨by decide,
    C10_count_bigrams_drops_oov [("a", "b"), ("a", "z")] [("a", 0), ("b", 1)]
      (by decide)⟩
